import Mathlib

/-!
Verification of the deno-task-runner core (src/parser.ts, src/runner.ts)
against its natural-language specification.

The TypeScript sources are shallowly embedded: strings are `List Char`,
the JS `Set` of live closers is a list keyed by an allocated set id in an
explicit state record, thrown exceptions are `Except` errors, and the
asynchronous execution engine is modelled by sequential state passing that
records a trace of the primitive effects (process spawns, kill requests,
resource-set allocation / membership changes).
-/

namespace DenoTaskRunner

/-! ## Strings and whitespace (JS `trim` / `\s` on the characters used here) -/

/-- Characters treated as whitespace by the JS `trim`/`\s` constructs, restricted
to the ASCII whitespace relevant to this code base. -/
def jsWs (c : Char) : Bool :=
  c = ' ' || c = '\t' || c = '\n' || c = '\r' || c = '\x0b' || c = '\x0c'

/-- `s.trim()`: drop whitespace from both ends. -/
def trimChars (s : List Char) : List Char :=
  ((s.dropWhile jsWs).reverse.dropWhile jsWs).reverse

/-- Convenience: the character list of a string literal. -/
def chars (s : String) : List Char := s.data

/-! ## The left-associative operator tree (`LTree` in src/parser.ts) -/

/-- `LTree<A> = Leaf<A> | LBranch<A>` with `LBranch = {left, op, right}`. -/
inductive LTree (α : Type) where
  | leaf (value : α)
  | branch (left : LTree α) (op : List Char) (right : α)
deriving DecidableEq, Repr

/-- Errors surfaced by `parse` (src/parser.ts) and by compilation
(`makeCommandFromASTCommand` in src/runner.ts). -/
inductive CompileError where
  /-- `Unsupported operator: ...`, carrying the matched offending tokens. -/
  | unsupportedOperator (toks : List (List Char))
  /-- `Invalid command: ${s}`, carrying the entire original input. -/
  | invalidCommand (s : List Char)
  /-- `Command should not be empty.` -/
  | emptyCommand
  /-- `Task name should not be empty.` -/
  | emptyTaskName
deriving DecidableEq, Repr

/-! ## JS `String.prototype.split` with a capturing separator group

`sep` in src/parser.ts splits on `/(&&|\|\|)/`, `/([&|])/` or `/([><])/` and
receives the separators interleaved with the segments.  The splitters below
return the first segment together with the (separator, following segment)
pairs, which is exactly how `sep` consumes the array. -/

/-- Split on the two-character tokens `&&` and `||` (tried in that order at
each position, advancing one character when neither matches), as
`/(&&|\|\|)/` does. -/
def splitSeqOps : List Char → (List Char × List (List Char × List Char))
  | [] => ([], [])
  | [c] => ([c], [])
  | c₁ :: c₂ :: rest =>
    if (c₁ = '&' ∧ c₂ = '&') ∨ (c₁ = '|' ∧ c₂ = '|') then
      let (seg, pairs) := splitSeqOps rest
      ([], ([c₁, c₂], seg) :: pairs)
    else
      let (seg, pairs) := splitSeqOps (c₂ :: rest)
      (c₁ :: seg, pairs)

/-- Split on a set of single-character tokens, as `/([&|])/` and `/([><])/` do. -/
def splitOneOf (toks : List Char) : List Char → (List Char × List (List Char × List Char))
  | [] => ([], [])
  | c :: rest =>
    if c ∈ toks then
      let (seg, pairs) := splitOneOf toks rest
      ([], ([c], seg) :: pairs)
    else
      let (seg, pairs) := splitOneOf toks rest
      (c :: seg, pairs)

/-- The `sep` combinator: trim the input, split it, parse every segment with
`each` and fold the results into a left-associative chain. -/
def sepParse {α : Type} (split : List Char → (List Char × List (List Char × List Char)))
    (each : List Char → Except Unit α) (s : List Char) : Except Unit (LTree α) := do
  let (first, pairs) := split (trimChars s)
  let a₀ ← each first
  pairs.foldlM (fun acc (op, seg) => do
    let r ← each seg
    pure (LTree.branch acc op r)) (LTree.leaf a₀)

/-! ## The redirect reducer and the AST (src/parser.ts) -/

/-- `AST.Command`: command text plus the collected redirect targets. -/
structure ASTCommand where
  command : List Char
  input : Option (List Char)
  output : Option (List Char)
deriving DecidableEq, Repr

/-- The walk of `reduceCommand`, from the root of the redirect chain (the
redirect furthest from the command text) down its left spine to the leaf.
Mirrors the source exactly, including `result.input = result.input || input`
for `<` and the self-assignment `result.output = result.output` for `>`,
which leaves `output` unset while still rejecting an empty trimmed target. -/
def reduceGo : LTree (List Char) → Option (List Char) → Option (List Char) →
    Except Unit ASTCommand
  | .leaf v, inp, out =>
    let c := trimChars v
    if c = [] then .error () else .ok ⟨c, inp, out⟩
  | .branch l op r, inp, out =>
    if op = ['<'] then
      let i := trimChars r
      if i = [] then .error ()
      else reduceGo l (inp.orElse fun _ => some i) out
    else if op = ['>'] then
      let o := trimChars r
      if o = [] then .error ()
      else reduceGo l inp out
    else
      reduceGo l inp out

/-- `reduceCommand` (src/parser.ts): collapse one redirect chain into an
`AST.Command`. -/
def reduceCommand (t : LTree (List Char)) : Except Unit ASTCommand :=
  reduceGo t none none

/-- The `redirects` parser: split on `/([><])/`, trim each segment, reduce. -/
def redirectsParse (s : List Char) : Except Unit ASTCommand := do
  let t ← sepParse (splitOneOf ['>', '<']) (fun seg => .ok (trimChars seg)) s
  reduceCommand t

/-- The `para` parser: split on `/([&|])/` into a chain of atomic commands. -/
def paraParse (s : List Char) : Except Unit (LTree ASTCommand) :=
  sepParse (splitOneOf ['&', '|']) redirectsParse s

/-- The `seq` parser: split on `/(&&|\|\|)/` into a chain of parallel chains. -/
def seqParse (s : List Char) : Except Unit (LTree (LTree ASTCommand)) :=
  sepParse splitSeqOps paraParse s

/-- The dedicated pre-scan `s.match(/(>>|\|&)/g)`: walk the string, trying
`>>` and then `|&` at every position, collecting all matches and advancing
past each match. -/
def scanUnsupported : List Char → List (List Char)
  | [] => []
  | [_] => []
  | c₁ :: c₂ :: rest =>
    if c₁ = '>' ∧ c₂ = '>' then ['>', '>'] :: scanUnsupported rest
    else if c₁ = '|' ∧ c₂ = '&' then ['|', '&'] :: scanUnsupported rest
    else scanUnsupported (c₂ :: rest)

/-- `parse` (src/parser.ts): fail fast on unsupported operators, then run the
structural parser, reporting any `ParseError` as `Invalid command: ${s}`. -/
def parse (s : List Char) : Except CompileError (LTree (LTree ASTCommand)) :=
  match scanUnsupported s with
  | [] =>
    match seqParse s with
    | .ok t => .ok t
    | .error _ => .error (.invalidCommand s)
  | toks => .error (.unsupportedOperator toks)

/-! ## Compiled commands (src/runner.ts)

The `Command` interface with its six implementing classes becomes a closed
variant type.  `WatchOptions` is opaque to the engine and carried through
unchanged, so it is modelled by `Unit`. -/

abbrev WatchOptions : Type := Unit

inductive Command where
  | single (name : List Char) (args : List (List Char))
  | ref (name : List Char) (args : List (List Char))
  | sequence (commands : List Command)
  | parallel (commands : List Command)
  | syncWatcher (dirs : List (List Char)) (watchOptions : WatchOptions) (command : Command)
  | asyncWatcher (dirs : List (List Char)) (watchOptions : WatchOptions) (command : Command)
deriving Repr

/-- `command.split(/\s/)` in `makeCommandFromASTCommand`: split on every single
whitespace character, keeping empty segments, always at least one segment. -/
def splitWs : List Char → List (List Char)
  | [] => [[]]
  | c :: rest =>
    if jsWs c then [] :: splitWs rest
    else
      match splitWs rest with
      | s :: ss => (c :: s) :: ss
      | [] => [[c]]

/-- `makeCommandFromASTCommand` (src/runner.ts): whitespace-split the command
text into program name and arguments; a `$`-prefixed name becomes a `Ref`.
Note that the AST's `input`/`output` fields are not consulted. -/
def makeCommandFromASTCommand (ast : ASTCommand) : Except CompileError Command :=
  match splitWs ast.command with
  | [] => .error .emptyCommand
  | name :: args =>
    match name with
    | '$' :: taskName =>
      if taskName = [] then .error .emptyTaskName
      else .ok (.ref taskName args)
    | _ => .ok (.single name args)

/-- `makeCommandFromASTParallel`: fold a parallel chain, ignoring the branch
operator (`&` and `|` are treated identically). -/
def makeCommandFromASTParallel : LTree ASTCommand → Except CompileError Command
  | .leaf c => makeCommandFromASTCommand c
  | .branch l _op r => do
    let left ← makeCommandFromASTParallel l
    let right ← makeCommandFromASTCommand r
    .ok (.parallel [left, right])

/-- `makeCommandFromAST`: fold a sequence chain, ignoring the branch operator
(`&&` and `||` are treated identically). -/
def makeCommandFromAST : LTree (LTree ASTCommand) → Except CompileError Command
  | .leaf p => makeCommandFromASTParallel p
  | .branch l _op r => do
    let left ← makeCommandFromAST l
    let right ← makeCommandFromASTParallel r
    .ok (.sequence [left, right])

/-- `makeSingleCommand`: parse a raw definition string and compile its tree. -/
def makeSingleCommand (raw : List Char) : Except CompileError Command := do
  let ast ← parse raw
  makeCommandFromAST ast

/-! ## Reference resolution (src/runner.ts)

`resolveRef` walks a compiled command, replacing every `Ref` by the
resolution of the referenced task, with a per-path `checked` set for cycle
detection and a `hasWatcher` flag rejecting nested watchers. -/

/-- The task registry `Tasks = { [name: string]: Command }`. -/
abbrev Tasks : Type := List (List Char × Command)

/-- `this.tasks[name]` lookup. -/
def findTask : Tasks → List Char → Option Command
  | [], _ => none
  | kv :: rest, name => if kv.1 = name then some kv.2 else findTask rest name

/-- `ResolveContext` (src/runner.ts). -/
structure ResolveContext where
  checked : List (List Char)
  hasWatcher : Bool
deriving DecidableEq, Repr

/-- Every error thrown on the resolution or execution path of src/runner.ts. -/
inductive RunError where
  /-- `Task "${name}" is not defined.` -/
  | taskNotDefined (name : List Char)
  /-- `Task "${name}" is in a reference loop.` -/
  | refLoop (name : List Char)
  /-- `Nested watchers not supported.` -/
  | nestedWatchers
  /-- `Ref should be resolved before running.` -/
  | refUnresolved
  /-- `Cannot pass args to sequential tasks.` -/
  | cannotPassArgsSeq
  /-- `Cannot pass args to parallel tasks.` -/
  | cannotPassArgsPar
  /-- `Command "${name}" not found.` -/
  | commandNotFound (name : List Char)
  /-- `ProcessError`: non-zero exit of the process with this spawn pid. -/
  | processError (pid : Nat)
  /-- `Task "${taskName}" not found.` -/
  | taskNotFound (name : List Char)
deriving DecidableEq, Repr

/-- Termination measure for resolution: the number of registered task names
not yet in the `checked` set.  Every `Ref` step moves one registered,
previously unchecked name into `checked`. -/
def uncheckedCount (tasks : Tasks) (checked : List (List Char)) : Nat :=
  ((tasks.map Prod.fst).filter (fun k => decide (k ∉ checked))).length

theorem findTask_mem {tasks : Tasks} {name : List Char} {c : Command}
    (h : findTask tasks name = some c) : name ∈ tasks.map Prod.fst := by
  induction tasks with
  | nil => simp [findTask] at h
  | cons kv rest ih =>
    rw [findTask] at h
    by_cases hk : kv.1 = name
    · rw [List.map_cons, hk]
      exact List.mem_cons_self _ _
    · simp only [hk, if_false] at h
      rw [List.map_cons]
      exact List.mem_cons_of_mem _ (ih h)

theorem filter_length_le_of_imp {α : Type} (p q : α → Bool)
    (h : ∀ a, p a = true → q a = true) :
    ∀ l : List α, (l.filter p).length ≤ (l.filter q).length := by
  intro l
  induction l with
  | nil => simp
  | cons a t ih =>
    by_cases hp : p a = true
    · rw [List.filter_cons_of_pos hp, List.filter_cons_of_pos (h a hp)]
      simpa using ih
    · rw [List.filter_cons_of_neg (by simpa using hp)]
      by_cases hq : q a = true
      · rw [List.filter_cons_of_pos hq]
        exact ih.trans (Nat.le_succ _)
      · rw [List.filter_cons_of_neg (by simpa using hq)]
        exact ih

theorem filter_length_lt_of_mem {α : Type} (p q : α → Bool)
    (h : ∀ a, p a = true → q a = true) {x : α} (hq : q x = true) (hp : p x = false) :
    ∀ {l : List α}, x ∈ l → (l.filter p).length < (l.filter q).length := by
  intro l hx
  induction l with
  | nil => simp at hx
  | cons a t ih =>
    rcases List.mem_cons.mp hx with rfl | hxt
    · rw [List.filter_cons_of_neg (by simp [hp]), List.filter_cons_of_pos hq]
      exact Nat.lt_succ_of_le (filter_length_le_of_imp p q h t)
    · by_cases hpa : p a = true
      · rw [List.filter_cons_of_pos hpa, List.filter_cons_of_pos (h a hpa)]
        simpa using ih hxt
      · rw [List.filter_cons_of_neg (by simpa using hpa)]
        by_cases hqa : q a = true
        · rw [List.filter_cons_of_pos hqa]
          exact (ih hxt).trans (Nat.lt_succ_self _)
        · rw [List.filter_cons_of_neg (by simpa using hqa)]
          exact ih hxt

theorem uncheckedCount_lt {tasks : Tasks} {name : List Char} {c : Command}
    {checked : List (List Char)} (hfind : findTask tasks name = some c)
    (hnot : name ∉ checked) :
    uncheckedCount tasks (name :: checked) < uncheckedCount tasks checked := by
  unfold uncheckedCount
  apply filter_length_lt_of_mem
  · intro a ha
    simp only [decide_eq_true_eq] at ha ⊢
    intro hmem
    exact ha (List.mem_cons_of_mem _ hmem)
  · simpa using hnot
  · simp
  · exact findTask_mem hfind

/-- The argument merge inside `Ref.resolveRef`:
`if (command instanceof Single) command = new Single(name, args.concat(this.args))`.
For any target that is not a `Single`, the reference's extra arguments are
not attached anywhere. -/
def mergeRefArgs (command : Command) (args : List (List Char)) : Command :=
  match command with
  | .single sn sa => .single sn (sa ++ args)
  | other => other

mutual

/-- `Command.resolveRef` dispatch (src/runner.ts).  A `Single` resolves to
itself; a `Ref` looks its task up (undefined name and reference loop are
errors), merges its extra arguments into the target's argument list only when
the target is a `Single`, and resolves the result with the name added to a
copy of `checked`; `Sequence`/`Parallel` resolve their children in order; the
watchers reject nesting via `hasWatcher` and resolve their inner command. -/
def resolveRef (tasks : Tasks) (c : Command) (ctx : ResolveContext) :
    Except RunError Command :=
  match c with
  | .single name args => .ok (.single name args)
  | .ref name args =>
    match hfind : findTask tasks name with
    | none => .error (.taskNotDefined name)
    | some command =>
      if hmem : name ∈ ctx.checked then .error (.refLoop name)
      else
        resolveRef tasks (mergeRefArgs command args)
          { ctx with checked := name :: ctx.checked }
  | .sequence cs => (resolveList tasks cs ctx).map Command.sequence
  | .parallel cs => (resolveList tasks cs ctx).map Command.parallel
  | .syncWatcher dirs wopts inner =>
    if ctx.hasWatcher then .error .nestedWatchers
    else (resolveRef tasks inner { ctx with hasWatcher := true }).map
      (Command.syncWatcher dirs wopts)
  | .asyncWatcher dirs wopts inner =>
    if ctx.hasWatcher then .error .nestedWatchers
    else (resolveRef tasks inner { ctx with hasWatcher := true }).map
      (Command.asyncWatcher dirs wopts)
termination_by (uncheckedCount tasks ctx.checked, sizeOf c)
decreasing_by
  all_goals first
    | exact Prod.Lex.left _ _ (uncheckedCount_lt hfind hmem)
    | exact Prod.Lex.right _ (by simp <;> omega)

/-- `this.commands.map(c => c.resolveRef(tasks, context))`: resolve children
left to right, stopping at the first error. -/
def resolveList (tasks : Tasks) (cs : List Command) (ctx : ResolveContext) :
    Except RunError (List Command) :=
  match cs with
  | [] => .ok []
  | c :: rest =>
    match resolveRef tasks c ctx with
    | .error e => .error e
    | .ok c' =>
      match resolveList tasks rest ctx with
      | .error e => .error e
      | .ok rest' => .ok (c' :: rest')
termination_by (uncheckedCount tasks ctx.checked, sizeOf cs)
decreasing_by
  all_goals exact Prod.Lex.right _ (by simp <;> omega)

end

/-! ## The execution engine (src/runner.ts)

The engine is `async`; the model passes an explicit `RunState` and records a
trace of primitive effects (newest first).  The JS `Set` objects of live
closers have identity, so the state keeps a store of sets keyed by an
allocation id, and a `RunContext` carries the id of the set it owns —
sharing a set between two contexts is sharing the id.  Concurrency
(`Promise.all`, the unawaited `AsyncWatcher` run) is sequentialised: every
branch runs to completion at its start site, which preserves which resource
sets each branch touches and which processes are spawned. -/

/-- The mode given to `deno.run` for the child's standard output;
`Single.run` always passes `"inherit"`. -/
inductive StdoutMode where
  | inherit
  | piped
deriving DecidableEq, Repr

/-- A live resource: the closer of a spawned process (whose `close()`
requests a kill), or the guard closer an `AsyncWatcher` installs into its
parent's set (whose `close()` throws `Nested watchers not supported.`). -/
inductive Closer where
  | proc (pid : Nat)
  | watchGuard (gid : Nat)
deriving DecidableEq, Repr

/-- Observable primitive effects, recorded newest first. -/
inductive Event where
  | spawned (pid : Nat) (prog : List Char) (args : List (List Char))
      (cwd : List Char) (stdout : StdoutMode)
  | killRequested (pid : Nat)
  | setAllocated (sid : Nat)
  | resourceAdded (sid : Nat) (c : Closer)
  | resourceRemoved (sid : Nat) (c : Closer)
  | setCleared (sid : Nat)
deriving DecidableEq, Repr

/-- Execution state: the store of live resource sets (the JS `Set` objects,
identified by allocation id; ids never seen by `allocSet` map to the empty
set), the allocators for set ids, process ids and guard ids, and the effect
trace. -/
structure RunState where
  store : Nat → List Closer
  nextSet : Nat
  nextPid : Nat
  nextGuard : Nat
  trace : List Event

/-- Update one set in the store. -/
def setStore (sid : Nat) (f : List Closer → List Closer)
    (store : Nat → List Closer) : Nat → List Closer :=
  fun k => if k = sid then f (store sid) else store k

/-- Append an event (newest first). -/
def pushEvent (e : Event) (st : RunState) : RunState :=
  { st with trace := e :: st.trace }

/-- `new Set()`: allocate a fresh, empty resource set. -/
def allocSet (st : RunState) : Nat × RunState :=
  (st.nextSet,
    { st with
      store := setStore st.nextSet (fun _ => []) st.store
      nextSet := st.nextSet + 1
      trace := .setAllocated st.nextSet :: st.trace })

/-- `resources.add(closer)`: JS `Set` insertion order; every closer object is
freshly created, so insertion appends. -/
def addResource (sid : Nat) (c : Closer) (st : RunState) : RunState :=
  { st with
    store := setStore sid (fun l => l ++ [c]) st.store
    trace := .resourceAdded sid c :: st.trace }

/-- `resources.delete(closer)`. -/
def removeResource (sid : Nat) (c : Closer) (st : RunState) : RunState :=
  { st with
    store := setStore sid (fun l => l.filter (fun x => decide (x ≠ c))) st.store
    trace := .resourceRemoved sid c :: st.trace }

/-- `resources.clear()`. -/
def clearSet (sid : Nat) (st : RunState) : RunState :=
  { st with
    store := setStore sid (fun _ => []) st.store
    trace := .setCleared sid :: st.trace }

/-- `closer.close()`: a process closer requests `kill(p)` (in the source the
kill is itself shelled out; it is recorded as a kill request); the
async-watcher guard closer throws.  Closing never touches the store. -/
def closeCloser (c : Closer) (st : RunState) : Except RunError Unit × RunState :=
  match c with
  | .proc pid => (.ok (), pushEvent (.killRequested pid) st)
  | .watchGuard _ => (.error .nestedWatchers, st)

/-- `for (let resource of resources) resource.close()`, in insertion order,
aborted by the first throwing `close()`. -/
def closeList : List Closer → RunState → Except RunError Unit × RunState
  | [], st => (.ok (), st)
  | c :: rest, st =>
    match closeCloser c st with
    | (.ok _, st') => closeList rest st'
    | err => err

/-- `closeResouces` (src/runner.ts, spelled as in the source): close every
member of the set, then `clear()` it; a throw aborts before the clear. -/
def closeResouces (sid : Nat) (st : RunState) : Except RunError Unit × RunState :=
  match closeList (st.store sid) st with
  | (.ok _, st') => (.ok (), clearSet sid st')
  | err => err

/-- `RunContext`: working directory plus the id of the owned resource set. -/
structure RunContext where
  cwd : List Char
  resources : Nat
deriving DecidableEq, Repr

/-- The external collaborators: whether `deno.run` can locate a program,
each spawned process's exit success (by pid), and how many change events a
watch stream yields while observed (the source's watch loops are infinite;
the model observes a finite prefix of `watchCount` events). -/
structure Env where
  found : List Char → Bool
  success : Nat → Bool
  watchCount : Nat

/-- `path.join(context.cwd, d)`, modelled as concatenation with a separator
(path normalisation does not matter to any claim). -/
def pathJoin (cwd d : List Char) : List Char := cwd ++ '/' :: d

mutual

/-- `Command.run` dispatch (src/runner.ts).
`Single.run` spawns `deno.run({args: [name, ...this.args, ...args], cwd,
stdout: "inherit", stderr: "inherit"})` (a program that cannot be located
throws `Command not found`), registers a process closer, awaits the exit
status, deregisters the closer, and throws `ProcessError` on failure.
`Ref.run` always throws.  `Sequence.run` rejects nonempty args, then awaits
its children in order, the first throw aborting the loop.  `Parallel.run`
rejects nonempty args, then starts every child against the *same* context
(`Promise.all`); the model runs each branch to completion and surfaces the
first error in branch order.  The watchers allocate one fresh child set,
run the wrapped command (errors swallowed), then loop over change events;
`AsyncWatcher` additionally installs a guard closer into the parent's set
for the duration of the loop (its run of the wrapped command is not
awaited in the source, which the sequential model renders as completing
before the next event). -/
def runCmd (env : Env) (c : Command) (args : List (List Char))
    (ctx : RunContext) (st : RunState) : Except RunError Unit × RunState :=
  match c with
  | .single name cargs =>
    if env.found name then
      let pid := st.nextPid
      let st :=
        { st with
          nextPid := pid + 1
          trace := .spawned pid name (cargs ++ args) ctx.cwd .inherit :: st.trace }
      let st := addResource ctx.resources (.proc pid) st
      let ok := env.success pid
      let st := removeResource ctx.resources (.proc pid) st
      (if ok then .ok () else .error (.processError pid), st)
    else
      (.error (.commandNotFound name), st)
  | .ref _ _ => (.error .refUnresolved, st)
  | .sequence cs =>
    if args ≠ [] then (.error .cannotPassArgsSeq, st)
    else runSeq env cs ctx st
  | .parallel cs =>
    if args ≠ [] then (.error .cannotPassArgsPar, st)
    else runPar env cs ctx st
  | .syncWatcher dirs _w inner =>
    let _dirs := dirs.map (pathJoin ctx.cwd)
    let (sid, st) := allocSet st
    let (_, st) := runCmd env inner args { ctx with resources := sid } st
    watchLoop env inner args ctx sid env.watchCount st
  | .asyncWatcher dirs _w inner =>
    let _dirs := dirs.map (pathJoin ctx.cwd)
    let (sid, st) := allocSet st
    let gid := st.nextGuard
    let st := { st with nextGuard := gid + 1 }
    let st := addResource ctx.resources (.watchGuard gid) st
    let (_, st) := runCmd env inner args { ctx with resources := sid } st
    match watchLoop env inner args ctx sid env.watchCount st with
    | (.ok _, st') => (.ok (), removeResource ctx.resources (.watchGuard gid) st')
    | err => err
termination_by (sizeOf c, 0)
decreasing_by
  all_goals exact Prod.Lex.left _ _ (by simp <;> omega)

/-- `for (let command of this.commands) await command.run([], context)`. -/
def runSeq (env : Env) (cs : List Command) (ctx : RunContext) (st : RunState) :
    Except RunError Unit × RunState :=
  match cs with
  | [] => (.ok (), st)
  | c :: rest =>
    match runCmd env c [] ctx st with
    | (.ok _, st') => runSeq env rest ctx st'
    | err => err
termination_by (sizeOf cs, 0)
decreasing_by
  all_goals exact Prod.Lex.left _ _ (by simp <;> omega)

/-- `await Promise.all(this.commands.map(c => c.run([], context)))`: every
branch runs against the same context; all branches run to completion and the
first failure (in branch order) becomes the overall outcome. -/
def runPar (env : Env) (cs : List Command) (ctx : RunContext) (st : RunState) :
    Except RunError Unit × RunState :=
  match cs with
  | [] => (.ok (), st)
  | c :: rest =>
    let (r, st') := runCmd env c [] ctx st
    let (r', st'') := runPar env rest ctx st'
    (match r with
      | .ok _ => r'
      | .error e => .error e, st'')
termination_by (sizeOf cs, 0)
decreasing_by
  all_goals exact Prod.Lex.left _ _ (by simp <;> omega)

/-- One watch loop: per change event, force-close the child set's leftovers
(`closeResouces`, whose throw would propagate out of the loop), then run the
wrapped command again, swallowing its outcome (`.catch(_ => {})`). -/
def watchLoop (env : Env) (inner : Command) (args : List (List Char))
    (ctx : RunContext) (sid : Nat) : Nat → RunState → Except RunError Unit × RunState
  | 0, st => (.ok (), st)
  | n + 1, st =>
    match closeResouces sid st with
    | (.ok _, st') =>
      let (_, st'') := runCmd env inner args { ctx with resources := sid } st'
      watchLoop env inner args ctx sid n st''
    | err => err
termination_by n _ => (sizeOf inner, n + 1)
decreasing_by
  · exact Prod.Lex.right _ (by omega)
  · exact Prod.Lex.right _ (by omega)

end

/-- The pristine state before a top-level run. -/
def initialState : RunState := ⟨fun _ => [], 0, 0, 0, []⟩

/-- `TaskRunner.run` (src/runner.ts): look the task up, create the resolve
context and the run context (whose resource set is freshly allocated), then
resolve all references and only then execute the resolved command.  A
resolution error is reported before anything runs. -/
def taskRunnerRun (env : Env) (tasks : Tasks) (taskName : List Char)
    (args : List (List Char)) (cwd : List Char) : Except RunError Unit × RunState :=
  match findTask tasks taskName with
  | none => (.error (.taskNotFound taskName), initialState)
  | some command =>
    let (sid, st) := allocSet initialState
    match resolveRef tasks command ⟨[], false⟩ with
    | .error e => (.error e, st)
    | .ok resolved => runCmd env resolved args ⟨cwd, sid⟩ st

/-! ## Observation helpers -/

/-- Is an event a process spawn? -/
def Event.isSpawn : Event → Bool
  | .spawned _ _ _ _ _ => true
  | _ => false

/-- The spawn events of a trace. -/
def spawnsOf (tr : List Event) : List Event :=
  tr.filter Event.isSpawn

/-- Is an event a resource-set allocation? -/
def Event.isAlloc : Event → Bool
  | .setAllocated _ => true
  | _ => false

/-- Is an event a resource-set insertion? -/
def Event.isAdd : Event → Bool
  | .resourceAdded _ _ => true
  | _ => false

/-- `tok` occurs as a contiguous substring of `s`. -/
def hasTok (tok s : List Char) : Prop := ∃ p q, s = p ++ tok ++ q

/-- Does an outcome consist of the `Ref should be resolved before running.`
error? -/
def isRefUnresolvedOutcome : Except RunError Unit → Bool
  | .error .refUnresolved => true
  | _ => false

mutual

/-- Commands containing no `Ref` node. -/
def refFree : Command → Bool
  | .single _ _ => true
  | .ref _ _ => false
  | .sequence cs => refFreeList cs
  | .parallel cs => refFreeList cs
  | .syncWatcher _ _ inner => refFree inner
  | .asyncWatcher _ _ inner => refFree inner

/-- `refFree` over a list of children. -/
def refFreeList : List Command → Bool
  | [] => true
  | c :: rest => refFree c && refFreeList rest

end

/-! ## Concrete fixtures used by counterexamples and witnesses -/

/-- Environment in which every program resolves and every process exits with
a failure status; watch streams observed for two change events. -/
def envAllFail : Env := ⟨fun _ => true, fun _ => false, 2⟩

/-- Environment in which every program resolves and every process succeeds;
watch streams observed for two change events. -/
def envAllOk : Env := ⟨fun _ => true, fun _ => true, 2⟩

/-- A top-level run context owning set 0. -/
def ctx0 : RunContext := ⟨chars ".", 0⟩

/-- The state right after `TaskRunner.run` has allocated its top-level set. -/
def st0 : RunState := (allocSet initialState).2

/-- Registry where task `b` passes an extra argument to the two-command
sequence task `a`. -/
def c4Tasks : Tasks :=
  [(chars "a", .sequence [.single ['x'] [], .single ['y'] []]),
   (chars "b", .ref (chars "a") [chars "arg"])]

/-- Registry with a two-task reference cycle. -/
def c6Tasks : Tasks :=
  [(chars "a", .ref (chars "b") []), (chars "b", .ref (chars "a") [])]

/-- A state whose set 0 holds the closer of a live process 7 whose owning
`run` call has not yet completed. -/
def c8State : RunState := ⟨fun k => if k = 0 then [.proc 7] else [], 1, 8, 0, []⟩

/-! # Theorems

First the shared helper lemmas, then one theorem per claim (with
counterexamples and witnesses where required). -/

/-- The `output` accumulator of the redirect walk is never changed: the
source's `>` branch assigns `result.output = result.output`. -/
theorem reduceGo_output (t : LTree (List Char)) :
    ∀ inp out c, reduceGo t inp out = .ok c → c.output = out := by
  induction t with
  | leaf v =>
    intro inp out c h
    simp only [reduceGo] at h
    split at h
    · cases h
    · cases h
      rfl
  | branch l op r ih =>
    intro inp out c h
    simp only [reduceGo] at h
    split_ifs at h with h₁ h₂ h₃ h₄
    · exact ih _ _ _ h
    · exact ih _ _ _ h
    · exact ih _ _ _ h

/-- Every token collected by the unsupported-operator scan is `>>` or `|&`. -/
theorem scanUnsupported_mem : ∀ (s t : List Char), t ∈ scanUnsupported s →
    t = ['>', '>'] ∨ t = ['|', '&'] := by
  intro s
  induction s using scanUnsupported.induct with
  | case1 => simp [scanUnsupported]
  | case2 c => simp [scanUnsupported]
  | case3 c₁ c₂ rest h ih =>
    intro t ht
    simp only [scanUnsupported, if_pos h] at ht
    rcases List.mem_cons.mp ht with rfl | ht'
    · exact Or.inl rfl
    · exact ih t ht'
  | case4 c₁ c₂ rest h₁ h₂ ih =>
    intro t ht
    simp only [scanUnsupported, if_neg h₁, if_pos h₂] at ht
    rcases List.mem_cons.mp ht with rfl | ht'
    · exact Or.inr rfl
    · exact ih t ht'
  | case5 c₁ c₂ rest h₁ h₂ ih =>
    intro t ht
    simp only [scanUnsupported, if_neg h₁, if_neg h₂] at ht
    exact ih t ht

/-- If `>>` or `|&` occurs somewhere in the input, the scan finds a match. -/
theorem scanUnsupported_ne_nil : ∀ s : List Char,
    hasTok ['>', '>'] s ∨ hasTok ['|', '&'] s → scanUnsupported s ≠ [] := by
  intro s
  induction s using scanUnsupported.induct with
  | case1 =>
    rintro (⟨p, q, hpq⟩ | ⟨p, q, hpq⟩) <;> simp at hpq
  | case2 c =>
    rintro (⟨p, q, hpq⟩ | ⟨p, q, hpq⟩) <;>
      · have := congrArg List.length hpq
        simp at this
        omega
  | case3 c₁ c₂ rest h ih =>
    intro _
    simp [scanUnsupported, h]
  | case4 c₁ c₂ rest h₁ h₂ ih =>
    intro _
    simp [scanUnsupported, h₁, h₂]
  | case5 c₁ c₂ rest h₁ h₂ ih =>
    rintro (⟨p, q, hpq⟩ | ⟨p, q, hpq⟩)
    · simp only [scanUnsupported, if_neg h₁, if_neg h₂]
      apply ih
      cases p with
      | nil =>
        exfalso
        simp at hpq
        exact h₁ ⟨hpq.1, hpq.2.1⟩
      | cons x p' =>
        refine Or.inl ⟨p', q, ?_⟩
        simpa using congrArg List.tail hpq
    · simp only [scanUnsupported, if_neg h₁, if_neg h₂]
      apply ih
      cases p with
      | nil =>
        exfalso
        simp at hpq
        exact h₂ ⟨hpq.1, hpq.2.1⟩
      | cons x p' =>
        refine Or.inr ⟨p', q, ?_⟩
        simpa using congrArg List.tail hpq

/-- Running the left command of a two-element `Sequence` to an error makes
the whole sequence stop with that error and that state: the right command
contributes nothing. -/
theorem runSeq_pair_error : ∀ (env : Env) (c₁ c₂ : Command) (ctx : RunContext)
    (st st₁ : RunState) (e : RunError),
    runCmd env c₁ [] ctx st = (.error e, st₁) →
    runCmd env (.sequence [c₁, c₂]) [] ctx st = (.error e, st₁) := by
  intro env c₁ c₂ ctx st st₁ e h
  rw [runCmd]
  simp only [ne_eq, not_true_eq_false, if_false]
  simp only [runSeq.eq_def]
  rw [h]

/-- Running the left command of a two-element `Sequence` to success makes the
whole sequence continue with the right command from the reached state. -/
theorem runSeq_pair_ok : ∀ (env : Env) (c₁ c₂ : Command) (ctx : RunContext)
    (st st₁ : RunState),
    runCmd env c₁ [] ctx st = (.ok (), st₁) →
    runCmd env (.sequence [c₁, c₂]) [] ctx st = runCmd env c₂ [] ctx st₁ := by
  intro env c₁ c₂ ctx st st₁ h
  rw [runCmd]
  simp only [ne_eq, not_true_eq_false, if_false]
  simp only [runSeq.eq_def]
  rw [h]
  simp only [runSeq.eq_def]
  cases hr : runCmd env c₂ [] ctx st₁ with
  | mk r st₂ =>
    cases r with
    | ok u => cases u; simp only [runSeq.eq_def]
    | error e => rfl

/-- The argument merge leaves any non-`Single` target untouched. -/
theorem mergeRefArgs_not_single (cmd : Command) (args : List (List Char))
    (h : ∀ sn sa, cmd ≠ .single sn sa) : mergeRefArgs cmd args = cmd := by
  cases cmd <;> first | rfl | exact absurd rfl (h _ _)

/-- Unfolding of `resolveRef` at a `Ref` node, stated with a non-dependent
match for rewriting. -/
theorem resolveRef_ref_eq (tasks : Tasks) (name : List Char)
    (args : List (List Char)) (ctx : ResolveContext) :
    resolveRef tasks (.ref name args) ctx =
      match findTask tasks name with
      | none => .error (.taskNotDefined name)
      | some command =>
        if name ∈ ctx.checked then .error (.refLoop name)
        else resolveRef tasks (mergeRefArgs command args)
              { ctx with checked := name :: ctx.checked } := by
  simp only [resolveRef]
  split <;> rename_i h
  · rw [h]
  · rw [h]
    split
    · rfl
    · rfl

/-- `Ref` step: defined task, name not yet visited. -/
theorem resolveRef_ref_found {tasks : Tasks} {name : List Char} {cmd : Command}
    (args : List (List Char)) (ctx : ResolveContext)
    (hfind : findTask tasks name = some cmd) (hnot : name ∉ ctx.checked) :
    resolveRef tasks (.ref name args) ctx =
      resolveRef tasks (mergeRefArgs cmd args)
        { ctx with checked := name :: ctx.checked } := by
  rw [resolveRef_ref_eq, hfind]
  simp [hnot]

/-- `Ref` step: name already visited fails with the reference-loop error. -/
theorem resolveRef_ref_loop {tasks : Tasks} {name : List Char} {cmd : Command}
    (args : List (List Char)) (ctx : ResolveContext)
    (hfind : findTask tasks name = some cmd) (hmem : name ∈ ctx.checked) :
    resolveRef tasks (.ref name args) ctx = .error (.refLoop name) := by
  rw [resolveRef_ref_eq, hfind]
  simp [hmem]

/-! ## Claim C1: `a || b` -/

/-- Claim C1 counterexample: the claim says that for `a || b` a failure of
`a` is swallowed and `b` still runs, the outcome following `b`.  In the code
`a || b` compiles to the same `Sequence` as `a && b`; in an environment where
every process fails, the compiled command fails with `a`'s `ProcessError`
and only `a` is ever spawned — `b` never runs. -/
theorem c1_counterexample :
    makeSingleCommand (chars "a || b") =
      .ok (.sequence [.single ['a'] [], .single ['b'] []]) ∧
    (runCmd envAllFail (.sequence [.single ['a'] [], .single ['b'] []]) [] ctx0 st0).1 =
      .error (.processError 0) ∧
    spawnsOf (runCmd envAllFail
        (.sequence [.single ['a'] [], .single ['b'] []]) [] ctx0 st0).2.trace =
      [.spawned 0 ['a'] [] (chars ".") .inherit] := by
  refine ⟨rfl, ?_, ?_⟩ <;>
    simp [runCmd, runSeq, envAllFail, ctx0, st0, addResource, removeResource,
      allocSet, initialState, spawnsOf, Event.isSpawn]

/-- Claim C1 amended: the sequence-tier operator is ignored by the compiler,
so `a || b` produces exactly the command `a && b` produces; execution of the
resulting `Sequence` evaluates the left command first and, if it fails,
propagates that failure without evaluating the right command at all. -/
theorem c1_amended :
    (∀ (l : LTree (LTree ASTCommand)) (r : LTree ASTCommand) (op op' : List Char),
      makeCommandFromAST (.branch l op r) = makeCommandFromAST (.branch l op' r)) ∧
    (∀ (env : Env) (c₁ c₂ : Command) (ctx : RunContext) (st st₁ : RunState)
      (e : RunError), runCmd env c₁ [] ctx st = (.error e, st₁) →
      runCmd env (.sequence [c₁, c₂]) [] ctx st = (.error e, st₁)) :=
  ⟨fun _ _ _ _ => rfl, runSeq_pair_error⟩

/-- Witness for `c1_amended` at a concrete failing left command. -/
theorem c1_witness :
    runCmd envAllFail (.single ['a'] []) [] ctx0 st0 =
      (.error (.processError 0), (runCmd envAllFail (.single ['a'] []) [] ctx0 st0).2) ∧
    runCmd envAllFail (.sequence [.single ['a'] [], .single ['b'] []]) [] ctx0 st0 =
      (.error (.processError 0), (runCmd envAllFail (.single ['a'] []) [] ctx0 st0).2) := by
  have h : runCmd envAllFail (.single ['a'] []) [] ctx0 st0 =
      (.error (.processError 0), (runCmd envAllFail (.single ['a'] []) [] ctx0 st0).2) := by
    apply Prod.ext
    · simp [runCmd, envAllFail, ctx0, st0, addResource, removeResource,
        allocSet, initialState]
    · rfl
  exact ⟨h, c1_amended.2 envAllFail _ _ ctx0 st0 _ _ h⟩

/-! ## Claim C2: output redirection -/

/-- Claim C2 counterexample: the claim says a command parsed with `> path`
runs with its standard output captured and streamed into the path.  In the
code the parse of `a > out` records no output target at all, the compiled
command is a bare `Single` with no redirect information, and running it
spawns the process with stdout `"inherit"` — nothing is ever opened or
written. -/
theorem c2_counterexample :
    parse (chars "a > out") = .ok (.leaf (.leaf ⟨['a'], none, none⟩)) ∧
    makeSingleCommand (chars "a > out") = .ok (.single ['a'] []) ∧
    spawnsOf (runCmd envAllOk (.single ['a'] []) [] ctx0 st0).2.trace =
      [.spawned 0 ['a'] [] (chars ".") .inherit] := by
  refine ⟨rfl, rfl, ?_⟩
  simp [runCmd, envAllOk, ctx0, st0, addResource, removeResource,
    allocSet, initialState, spawnsOf, Event.isSpawn]

/-- Claim C2 amended: output redirects are parsed and validated but have no
effect: a successful reduction never sets the `output` field, the compiler
ignores the AST's redirect fields entirely, and `Single.run` always spawns
the process with stdout mode `"inherit"` (its only spawn, when the program
is found, inherits the terminal). -/
theorem c2_amended :
    (∀ (t : LTree (List Char)) (c : ASTCommand),
      reduceCommand t = .ok c → c.output = none) ∧
    (∀ (cmd : List Char) (inp out inp' out' : Option (List Char)),
      makeCommandFromASTCommand ⟨cmd, inp, out⟩ = makeCommandFromASTCommand ⟨cmd, inp', out'⟩) ∧
    (∀ (env : Env) (name : List Char) (cargs args : List (List Char))
      (ctx : RunContext) (st : RunState),
      spawnsOf (runCmd env (.single name cargs) args ctx st).2.trace =
        (if env.found name then
          [Event.spawned st.nextPid name (cargs ++ args) ctx.cwd .inherit] else []) ++
        spawnsOf st.trace) := by
  refine ⟨fun t c h => reduceGo_output t none none c h, fun _ _ _ _ _ => rfl, ?_⟩
  intro env name cargs args ctx st
  by_cases h : env.found name
  · simp [runCmd, h, addResource, removeResource, spawnsOf, Event.isSpawn]
  · simp [runCmd, h, spawnsOf]

/-- Witness for `c2_amended` at a concrete redirect chain. -/
theorem c2_witness :
    reduceCommand (LTree.branch (.leaf ['a']) ['>'] ['o']) = .ok ⟨['a'], none, none⟩ ∧
    (⟨['a'], none, none⟩ : ASTCommand).output = none :=
  ⟨rfl, c2_amended.1 (LTree.branch (.leaf ['a']) ['>'] ['o']) ⟨['a'], none, none⟩ rfl⟩

/-! ## Claim C3: redirect collection -/

/-- Claim C3 counterexample: the claim says the occurrence of a redirect
direction nearest the command text wins and that the field is set whenever a
non-empty redirect of that direction is present.  Parsing `c < a < b`
records `b` — the occurrence furthest from the command — as the input, not
the nearest occurrence `a`; and parsing `c > d`, with one non-empty output
redirect, leaves the output field unset. -/
theorem c3_counterexample :
    parse (chars "c < a < b") = .ok (.leaf (.leaf ⟨['c'], some ['b'], none⟩)) ∧
    parse (chars "c > d") = .ok (.leaf (.leaf ⟨['c'], none, none⟩)) :=
  ⟨rfl, rfl⟩

/-- Claim C3 amended: walking the redirect chain from its outer end, the
parser records for `<` the first occurrence encountered — the one furthest
from the command text (rightmost in the source) — and never overwrites it
with occurrences nearer the command; a `>` redirect with a non-empty target
is validated but discarded, so the output field of a successful reduction is
never set. -/
theorem c3_amended :
    (∀ (c a b : List Char), trimChars c ≠ [] → trimChars a ≠ [] → trimChars b ≠ [] →
      reduceCommand (.branch (.branch (.leaf c) ['<'] a) ['<'] b) =
        .ok ⟨trimChars c, some (trimChars b), none⟩) ∧
    (∀ (l : LTree (List Char)) (r : List Char), trimChars r ≠ [] →
      reduceCommand (.branch l ['>'] r) = reduceCommand l) ∧
    (∀ (t : LTree (List Char)) (c : ASTCommand),
      reduceCommand t = .ok c → c.output = none) := by
  refine ⟨?_, ?_, fun t c h => reduceGo_output t none none c h⟩
  · intro c a b hc ha hb
    simp [reduceCommand, reduceGo, hc, ha, hb, Option.orElse]
  · intro l r hr
    simp [reduceCommand, reduceGo, hr]

/-- Witness for `c3_amended` at concrete redirect chains. -/
theorem c3_witness :
    trimChars ['c'] ≠ [] ∧ trimChars ['a'] ≠ [] ∧ trimChars ['b'] ≠ [] ∧
    reduceCommand (.branch (.branch (.leaf ['c']) ['<'] ['a']) ['<'] ['b']) =
      .ok ⟨['c'], some ['b'], none⟩ := by
  refine ⟨by decide, by decide, by decide, ?_⟩
  exact c3_amended.1 ['c'] ['a'] ['b'] (by decide) (by decide) (by decide)

/-! ## Claim C4: extra arguments on a reference to a non-atom task -/

/-- Claim C4 counterexample: the claim says that a `$`-reference carrying
extra arguments to a task whose root is a `Sequence`/`Parallel` is an error
reported during resolution, before side effects.  In the code, resolving
`$a arg` against the two-command sequence task `a` succeeds — the argument
is silently dropped — and the subsequent run spawns both processes. -/
theorem c4_counterexample :
    resolveRef c4Tasks (.ref (chars "a") [chars "arg"]) ⟨[], false⟩ =
      .ok (.sequence [.single ['x'] [], .single ['y'] []]) ∧
    (taskRunnerRun envAllOk c4Tasks (chars "b") [] (chars ".")).1 = .ok () ∧
    spawnsOf (taskRunnerRun envAllOk c4Tasks (chars "b") [] (chars ".")).2.trace =
      [.spawned 1 ['y'] [] (chars ".") .inherit,
       .spawned 0 ['x'] [] (chars ".") .inherit] := by
  have hres : resolveRef c4Tasks (.ref (chars "a") [chars "arg"]) ⟨[], false⟩ =
      .ok (.sequence [.single ['x'] [], .single ['y'] []]) := by
    rw [resolveRef]
    simp [resolveList, resolveRef, findTask, chars, mergeRefArgs]
    rfl
  refine ⟨hres, ?_, ?_⟩ <;>
    · have hfb : findTask c4Tasks (chars "b") = some (.ref (chars "a") [chars "arg"]) := rfl
      simp only [taskRunnerRun, hfb, hres]
      simp [runCmd, runSeq, envAllOk, addResource, removeResource,
        allocSet, initialState, spawnsOf, Event.isSpawn, chars]

/-- Claim C4 amended: extra arguments at a reference whose task root is not
a `Single` are silently discarded: resolution does not depend on them and no
error is raised on their account. -/
theorem c4_amended : ∀ (tasks : Tasks) (name : List Char)
    (args args' : List (List Char)) (cmd : Command) (ctx : ResolveContext),
    findTask tasks name = some cmd → (∀ sn sa, cmd ≠ .single sn sa) →
    resolveRef tasks (.ref name args) ctx = resolveRef tasks (.ref name args') ctx := by
  intro tasks name args args' cmd ctx hfind hns
  rw [resolveRef_ref_eq, resolveRef_ref_eq, hfind]
  simp only [mergeRefArgs_not_single cmd _ hns]

/-- Witness for `c4_amended` on the concrete registry. -/
theorem c4_witness :
    findTask c4Tasks (chars "a") =
      some (.sequence [.single ['x'] [], .single ['y'] []]) ∧
    resolveRef c4Tasks (.ref (chars "a") [chars "arg"]) ⟨[], false⟩ =
      resolveRef c4Tasks (.ref (chars "a") []) ⟨[], false⟩ :=
  ⟨rfl, c4_amended c4Tasks (chars "a") [chars "arg"] [] _ ⟨[], false⟩ rfl
    (fun _ _ h => by cases h)⟩

/-! ## Claim C6: reference cycles -/

/-- Claim C6: a direct self-reference (`a` defined as `$a`, the case `a = b`)
or a mutual reference (`a` → `$b`, `b` → `$a`) makes `TaskRunner.run` fail
with the reference-loop error naming a task in the loop, and no external
process is spawned. -/
theorem c6_cycle_error : ∀ (env : Env) (tasks : Tasks) (a b : List Char)
    (ra rb args : List (List Char)) (cwd : List Char),
    findTask tasks a = some (.ref b ra) → findTask tasks b = some (.ref a rb) →
    (taskRunnerRun env tasks a args cwd).1 = .error (.refLoop b) ∧
    spawnsOf (taskRunnerRun env tasks a args cwd).2.trace = [] := by
  intro env tasks a b ra rb args cwd ha hb
  have key : resolveRef tasks (.ref b ra) ⟨[], false⟩ = .error (.refLoop b) := by
    by_cases hab : a = b
    · subst hab
      rw [resolveRef_ref_found ra _ ha (by simp)]
      simp only [mergeRefArgs]
      exact resolveRef_ref_loop ra _ ha (by simp)
    · rw [resolveRef_ref_found ra _ hb (by simp)]
      simp only [mergeRefArgs]
      rw [resolveRef_ref_found rb _ ha (by simp [hab])]
      simp only [mergeRefArgs]
      exact resolveRef_ref_loop ra _ hb (by simp)
  constructor
  · simp only [taskRunnerRun, ha, key]
  · simp only [taskRunnerRun, ha, key]
    simp [allocSet, initialState, spawnsOf, Event.isSpawn]

/-- Witness for `c6_cycle_error` on the concrete two-task cycle. -/
theorem c6_witness :
    findTask c6Tasks (chars "a") = some (.ref (chars "b") []) ∧
    findTask c6Tasks (chars "b") = some (.ref (chars "a") []) ∧
    (taskRunnerRun envAllOk c6Tasks (chars "a") [] (chars ".")).1 =
      .error (.refLoop (chars "b")) ∧
    spawnsOf (taskRunnerRun envAllOk c6Tasks (chars "a") [] (chars ".")).2.trace = [] := by
  have h := c6_cycle_error envAllOk c6Tasks (chars "a") (chars "b") [] [] [] (chars ".")
    rfl rfl
  exact ⟨rfl, rfl, h.1, h.2⟩

/-! ## Claim C7: `a && b` -/

/-- Claim C7: `a && b` compiles to a two-command `Sequence`; if the left
command fails, the whole run fails with exactly the left command's error and
state — the right command is never evaluated — and if the left command
succeeds, the right command is evaluated from the reached state and its
outcome is the outcome of the whole sequence. -/
theorem c7_and_semantics :
    makeSingleCommand (chars "a && b") =
      .ok (.sequence [.single ['a'] [], .single ['b'] []]) ∧
    (∀ (env : Env) (c₁ c₂ : Command) (ctx : RunContext) (st st₁ : RunState)
      (e : RunError), runCmd env c₁ [] ctx st = (.error e, st₁) →
      runCmd env (.sequence [c₁, c₂]) [] ctx st = (.error e, st₁)) ∧
    (∀ (env : Env) (c₁ c₂ : Command) (ctx : RunContext) (st st₁ : RunState),
      runCmd env c₁ [] ctx st = (.ok (), st₁) →
      runCmd env (.sequence [c₁, c₂]) [] ctx st = runCmd env c₂ [] ctx st₁) :=
  ⟨rfl, runSeq_pair_error, runSeq_pair_ok⟩

/-- Witness for `c7_and_semantics` at a concrete succeeding left command. -/
theorem c7_witness :
    runCmd envAllOk (.single ['a'] []) [] ctx0 st0 =
      (.ok (), (runCmd envAllOk (.single ['a'] []) [] ctx0 st0).2) ∧
    runCmd envAllOk (.sequence [.single ['a'] [], .single ['b'] []]) [] ctx0 st0 =
      runCmd envAllOk (.single ['b'] []) [] ctx0
        (runCmd envAllOk (.single ['a'] []) [] ctx0 st0).2 := by
  have h : runCmd envAllOk (.single ['a'] []) [] ctx0 st0 =
      (.ok (), (runCmd envAllOk (.single ['a'] []) [] ctx0 st0).2) := by
    apply Prod.ext
    · simp [runCmd, envAllOk, ctx0, st0, addResource, removeResource]
    · rfl
  exact ⟨h, c7_and_semantics.2.2 envAllOk _ _ ctx0 st0 _ h⟩

/-! ## Claim C9: unsupported operators -/

/-- Claim C9: any input containing `>>` or `|&` as a substring fails to
parse with the unsupported-operator error produced by the pre-scan — not
with the structural `Invalid command` error — carrying a non-empty list of
offending tokens, each of which is `>>` or `|&`. -/
theorem c9_unsupported : ∀ s : List Char,
    hasTok ['>', '>'] s ∨ hasTok ['|', '&'] s →
    parse s = .error (.unsupportedOperator (scanUnsupported s)) ∧
    scanUnsupported s ≠ [] ∧
    ∀ t ∈ scanUnsupported s, t = ['>', '>'] ∨ t = ['|', '&'] := by
  intro s h
  have hne := scanUnsupported_ne_nil s h
  refine ⟨?_, hne, fun t ht => scanUnsupported_mem s t ht⟩
  unfold parse
  cases hscan : scanUnsupported s with
  | nil => exact absurd hscan hne
  | cons t ts => rfl

/-- Witness for `c9_unsupported` on `a >> b`. -/
theorem c9_witness :
    (hasTok ['>', '>'] (chars "a >> b") ∨ hasTok ['|', '&'] (chars "a >> b")) ∧
    parse (chars "a >> b") =
      .error (.unsupportedOperator (scanUnsupported (chars "a >> b"))) :=
  ⟨Or.inl ⟨['a', ' '], [' ', 'b'], rfl⟩,
   (c9_unsupported (chars "a >> b") (Or.inl ⟨['a', ' '], [' ', 'b'], rfl⟩)).1⟩

/-! ## Claim C8: closer lifecycle -/

/-- Closing a list of process closers only records kill requests: the store
is untouched, and the outcome is success. -/
theorem closeList_all_proc : ∀ (l : List Closer) (st : RunState),
    (∀ c ∈ l, ∃ pid, c = Closer.proc pid) →
    (closeList l st).1 = .ok () ∧ (closeList l st).2.store = st.store := by
  intro l
  induction l with
  | nil => intro st _; exact ⟨rfl, rfl⟩
  | cons c rest ih =>
    intro st hall
    obtain ⟨pid, rfl⟩ := hall c (List.mem_cons_self c rest)
    simp only [closeList, closeCloser]
    exact ih _ (fun c hc => hall c (List.mem_cons_of_mem _ hc))

/-- Claim C8 counterexample: the claim says that closing a resource
externally — e.g. from a watcher's force-close — does not itself remove it
from the set, removal happening only when the owning `run` completes
normally.  `closeResouces`, the watcher's force-close, applied to a set
holding the closer of a still-running process 7, requests the kill *and*
empties the set, removing a resource whose owning run never completed. -/
theorem c8_counterexample :
    (closeResouces 0 c8State).1 = .ok () ∧
    (closeResouces 0 c8State).2.store 0 = [] ∧
    (closeResouces 0 c8State).2.trace = [.setCleared 0, .killRequested 7] := by
  refine ⟨?_, ?_, ?_⟩ <;>
    simp [closeResouces, closeList, closeCloser, c8State, clearSet, setStore, pushEvent]

/-- Claim C8 amended: an individual `close()` call never touches any
resource set (it only requests termination); the owning `Single.run` removes
its closer from the context's set when the awaited status resolves — on
success and failure alike; and the watcher force-close `closeResouces`
requests a kill for every member and then clears the whole set itself. -/
theorem c8_amended :
    (∀ (c : Closer) (st : RunState), (closeCloser c st).2.store = st.store) ∧
    (∀ (env : Env) (name : List Char) (cargs args : List (List Char))
      (ctx : RunContext) (st : RunState), env.found name = true →
      Closer.proc st.nextPid ∉ st.store ctx.resources →
      (runCmd env (.single name cargs) args ctx st).2.store ctx.resources =
        st.store ctx.resources) ∧
    (∀ (sid : Nat) (st : RunState), (∀ c ∈ st.store sid, ∃ pid, c = Closer.proc pid) →
      (closeResouces sid st).1 = .ok () ∧ (closeResouces sid st).2.store sid = []) := by
  refine ⟨?_, ?_, ?_⟩
  · intro c st
    cases c <;> rfl
  · intro env name cargs args ctx st hf hnot
    simp only [runCmd, hf, if_true]
    simp [addResource, removeResource, setStore, List.filter_append]
    intro x hx heq
    exact hnot (heq ▸ hx)
  · intro sid st hall
    have h := closeList_all_proc (st.store sid) st hall
    simp only [closeResouces]
    cases hc : closeList (st.store sid) st with
    | mk r st' =>
      rw [hc] at h
      simp at h
      obtain ⟨h1, h2⟩ := h
      subst h1
      simp [clearSet, setStore]

/-- Witness for `c8_amended`: a concrete `Single.run` leaves the owning set
as it found it. -/
theorem c8_witness :
    envAllOk.found ['a'] = true ∧
    Closer.proc st0.nextPid ∉ st0.store ctx0.resources ∧
    (runCmd envAllOk (.single ['a'] []) [] ctx0 st0).2.store ctx0.resources =
      st0.store ctx0.resources :=
  ⟨rfl, by simp [st0, allocSet, initialState, setStore, ctx0],
   c8_amended.2.1 envAllOk ['a'] [] [] ctx0 st0 rfl
     (by simp [st0, allocSet, initialState, setStore, ctx0])⟩

/-! ## Claim C5: resource-set sharing -/

/-- Effects of running a `Single` against a context whose set is empty: the
new trace events allocate no set and insert only into the context's own set,
and the store is restored to what it was (the closer is added and removed
again). -/
theorem runCmd_single_effects (env : Env) (p : List Char) (cargs args : List (List Char))
    (ctx : RunContext) (st : RunState) (hst : st.store ctx.resources = []) :
    ∃ new, (runCmd env (.single p cargs) args ctx st).2.trace = new ++ st.trace ∧
      new.filter Event.isAlloc = [] ∧
      (∀ s c, Event.resourceAdded s c ∈ new → s = ctx.resources) ∧
      (runCmd env (.single p cargs) args ctx st).2.store = st.store := by
  by_cases hf : env.found p
  · refine ⟨[.resourceRemoved ctx.resources (.proc st.nextPid),
      .resourceAdded ctx.resources (.proc st.nextPid),
      .spawned st.nextPid p (cargs ++ args) ctx.cwd .inherit], ?_, ?_, ?_, ?_⟩
    · simp [runCmd, hf, addResource, removeResource, pushEvent]
    · simp [Event.isAlloc]
    · intro s c hmem
      simp at hmem
      exact hmem.1
    · simp only [runCmd, hf, if_true]
      funext k
      by_cases hk : k = ctx.resources
      · subst hk
        simp [addResource, removeResource, setStore, hst]
      · simp [addResource, removeResource, setStore, hk]
  · exact ⟨[], by simp [runCmd, hf], by simp, by simp, by simp [runCmd, hf]⟩

/-- Through any number of watch-loop iterations over a `Single`, no resource
set is ever allocated, every insertion targets the loop's single child set,
that set is empty again after every iteration, and the loop completes
normally. -/
theorem watchLoop_single_props : ∀ (n : Nat) (env : Env) (p : List Char)
    (args : List (List Char)) (ctx : RunContext) (sid : Nat) (st : RunState),
    st.store sid = [] →
    ∃ new, (watchLoop env (.single p []) args ctx sid n st).2.trace = new ++ st.trace ∧
      new.filter Event.isAlloc = [] ∧
      (∀ s c, Event.resourceAdded s c ∈ new → s = sid) ∧
      (watchLoop env (.single p []) args ctx sid n st).2.store sid = [] ∧
      (watchLoop env (.single p []) args ctx sid n st).1 = .ok () := by
  intro n
  induction n with
  | zero =>
    intro env p args ctx sid st hs
    exact ⟨[], by simp [watchLoop], by simp, by simp, by simp [watchLoop, hs],
      by simp [watchLoop]⟩
  | succ n ih =>
    intro env p args ctx sid st hs
    have hclose : closeResouces sid st = (.ok (), clearSet sid st) := by
      simp [closeResouces, hs, closeList]
    have hs₁ : (clearSet sid st).store sid = [] := by simp [clearSet, setStore]
    obtain ⟨new₁, ht₁, ha₁, hadds₁, hstore₁⟩ :=
      runCmd_single_effects env p [] args { ctx with resources := sid } (clearSet sid st)
        (by simpa using hs₁)
    rcases hrun : runCmd env (.single p []) args { ctx with resources := sid }
      (clearSet sid st) with ⟨r₁, st₂⟩
    rw [hrun] at ht₁ hstore₁
    simp only at ht₁ hstore₁
    have hs₂ : st₂.store sid = [] := by rw [hstore₁]; exact hs₁
    obtain ⟨new₂, ht₂, ha₂, hadds₂, hstore₂, hok₂⟩ := ih env p args ctx sid st₂ hs₂
    have hred : watchLoop env (.single p []) args ctx sid (n + 1) st =
        watchLoop env (.single p []) args ctx sid n st₂ := by
      rw [watchLoop, hclose]
      simp only [hrun]
    refine ⟨new₂ ++ new₁ ++ [.setCleared sid], ?_, ?_, ?_, ?_, ?_⟩
    · rw [hred, ht₂, ht₁]
      simp [clearSet, List.append_assoc]
    · simp [List.filter_append, ha₁, ha₂, Event.isAlloc]
    · intro s c hmem
      simp only [List.append_assoc, List.mem_append] at hmem
      rcases hmem with h | h | h
      · exact hadds₂ s c h
      · exact hadds₁ s c h
      · simp at h
    · rw [hred]; exact hstore₂
    · rw [hred]; exact hok₂

/-- Reduction of a sync-watcher run: allocate the one child set, run the
wrapped command against it, then loop. -/
theorem runCmd_syncWatcher_eq (env : Env) (dirs : List (List Char)) (w : WatchOptions)
    (inner : Command) (args : List (List Char)) (ctx : RunContext) (st : RunState) :
    runCmd env (.syncWatcher dirs w inner) args ctx st =
      watchLoop env inner args ctx (allocSet st).1 env.watchCount
        (runCmd env inner args { ctx with resources := (allocSet st).1 }
          (allocSet st).2).2 := by
  rw [runCmd]

/-- Reduction of an async-watcher run: allocate the one child set, install
the guard closer into the parent's set, run the wrapped command against the
child set, loop, and deregister the guard if the loop completes. -/
theorem runCmd_asyncWatcher_eq (env : Env) (dirs : List (List Char)) (w : WatchOptions)
    (inner : Command) (args : List (List Char)) (ctx : RunContext) (st : RunState) :
    runCmd env (.asyncWatcher dirs w inner) args ctx st =
      match watchLoop env inner args ctx (allocSet st).1 env.watchCount
        (runCmd env inner args { ctx with resources := (allocSet st).1 }
          (addResource ctx.resources (.watchGuard (allocSet st).2.nextGuard)
            { (allocSet st).2 with nextGuard := (allocSet st).2.nextGuard + 1 })).2 with
      | (.ok _, st') =>
        (.ok (), removeResource ctx.resources (.watchGuard (allocSet st).2.nextGuard) st')
      | err => err := by
  rw [runCmd]

/-- Claim C5 counterexample: the claim says every concurrent-branch boundary
and every watch-loop iteration gets a freshly allocated resource set, never
shared across siblings or iterations.  Running two singles in parallel
allocates no set at all — both branch closers enter the parent's set 0 — and
a sync watcher observed for two change events allocates exactly one child
set (id 1) while all three iterations insert their closers into that same
set. -/
theorem c5_counterexample :
    ((runCmd envAllOk (.parallel [.single ['a'] [], .single ['b'] []]) [] ctx0 st0).2.trace.filter
        Event.isAlloc = [.setAllocated 0] ∧
     (runCmd envAllOk (.parallel [.single ['a'] [], .single ['b'] []]) [] ctx0 st0).2.trace.filter
        Event.isAdd = [.resourceAdded 0 (.proc 1), .resourceAdded 0 (.proc 0)]) ∧
    ((runCmd envAllOk (.syncWatcher [['d']] () (.single ['a'] [])) [] ctx0 st0).2.trace.filter
        Event.isAlloc = [.setAllocated 1, .setAllocated 0] ∧
     (runCmd envAllOk (.syncWatcher [['d']] () (.single ['a'] [])) [] ctx0 st0).2.trace.filter
        Event.isAdd =
       [.resourceAdded 1 (.proc 2), .resourceAdded 1 (.proc 1), .resourceAdded 1 (.proc 0)] ∧
     ((runCmd envAllOk (.syncWatcher [['d']] () (.single ['a'] [])) [] ctx0 st0).2.trace.filter
        Event.isSpawn).length = 3) := by
  refine ⟨⟨?_, ?_⟩, ?_, ?_, ?_⟩ <;>
    simp [runCmd, runPar, watchLoop, closeResouces, closeList, closeCloser, clearSet,
      envAllOk, ctx0, st0, addResource, removeResource, allocSet, initialState, setStore,
      pushEvent, Event.isAlloc, Event.isAdd, Event.isSpawn]

/-- Claim C5 amended: a `Parallel` boundary allocates no resource set — both
branches run against the parent context's own set, into which their closers
are inserted — while each watcher run allocates exactly one fresh child set
(the next allocator id) which every iteration of its loop reuses; for an
async watcher the only insertion outside that child set is its guard closer,
installed into the parent's set. -/
theorem c5_amended :
    (∀ (env : Env) (pa pb : List Char) (ctx : RunContext) (st : RunState),
      env.found pa = true → env.found pb = true →
      (runCmd env (.parallel [.single pa [], .single pb []]) [] ctx st).2.trace =
        .resourceRemoved ctx.resources (.proc (st.nextPid + 1)) ::
        .resourceAdded ctx.resources (.proc (st.nextPid + 1)) ::
        .spawned (st.nextPid + 1) pb [] ctx.cwd .inherit ::
        .resourceRemoved ctx.resources (.proc st.nextPid) ::
        .resourceAdded ctx.resources (.proc st.nextPid) ::
        .spawned st.nextPid pa [] ctx.cwd .inherit :: st.trace) ∧
    (∀ (env : Env) (dirs : List (List Char)) (w : WatchOptions) (p : List Char)
      (args : List (List Char)) (ctx : RunContext) (st : RunState),
      ∃ new, (runCmd env (.syncWatcher dirs w (.single p [])) args ctx st).2.trace =
          new ++ st.trace ∧
        new.filter Event.isAlloc = [.setAllocated st.nextSet] ∧
        (∀ s c, Event.resourceAdded s c ∈ new → s = st.nextSet)) ∧
    (∀ (env : Env) (dirs : List (List Char)) (w : WatchOptions) (p : List Char)
      (args : List (List Char)) (ctx : RunContext) (st : RunState),
      ctx.resources ≠ st.nextSet →
      ∃ new, (runCmd env (.asyncWatcher dirs w (.single p [])) args ctx st).2.trace =
          new ++ st.trace ∧
        new.filter Event.isAlloc = [.setAllocated st.nextSet] ∧
        (∀ s c, Event.resourceAdded s c ∈ new →
          s = st.nextSet ∨ (s = ctx.resources ∧ c = .watchGuard st.nextGuard))) := by
  refine ⟨?_, ?_, ?_⟩
  · intro env pa pb ctx st hfa hfb
    rw [runCmd]
    simp [runPar, runCmd, hfa, hfb, addResource, removeResource, pushEvent]
  · intro env dirs w p args ctx st
    have hred := runCmd_syncWatcher_eq env dirs w (.single p []) args ctx st
    have hsA : (allocSet st).2.store (allocSet st).1 = [] := by simp [allocSet, setStore]
    obtain ⟨new₁, ht₁, ha₁, hadds₁, hstore₁⟩ :=
      runCmd_single_effects env p [] args { ctx with resources := (allocSet st).1 }
        (allocSet st).2 (by simpa using hsA)
    obtain ⟨new₂, ht₂, ha₂, hadds₂, hstore₂, hok₂⟩ :=
      watchLoop_single_props env.watchCount env p args ctx (allocSet st).1
        (runCmd env (.single p []) args { ctx with resources := (allocSet st).1 }
          (allocSet st).2).2
        (by rw [hstore₁]; exact hsA)
    refine ⟨new₂ ++ new₁ ++ [.setAllocated st.nextSet], ?_, ?_, ?_⟩
    · rw [hred, ht₂, ht₁]
      simp [allocSet, List.append_assoc]
    · simp [List.filter_append, ha₁, ha₂, Event.isAlloc]
    · intro s c hmem
      simp only [List.append_assoc, List.mem_append] at hmem
      rcases hmem with h | h | h
      · exact hadds₂ s c h
      · exact hadds₁ s c h
      · simp at h
  · intro env dirs w p args ctx st hctx
    have hred := runCmd_asyncWatcher_eq env dirs w (.single p []) args ctx st
    have hguard : (allocSet st).2.nextGuard = st.nextGuard := rfl
    have hsid : (allocSet st).1 = st.nextSet := rfl
    set stG := addResource ctx.resources (.watchGuard (allocSet st).2.nextGuard)
      { (allocSet st).2 with nextGuard := (allocSet st).2.nextGuard + 1 } with hstG
    have hsG : stG.store (allocSet st).1 = [] := by
      rw [hstG]
      simp only [addResource, setStore, hsid]
      rw [if_neg (Ne.symm hctx)]
      simp [allocSet, setStore]
    obtain ⟨new₁, ht₁, ha₁, hadds₁, hstore₁⟩ :=
      runCmd_single_effects env p [] args { ctx with resources := (allocSet st).1 } stG
        (by simpa using hsG)
    obtain ⟨new₂, ht₂, ha₂, hadds₂, hstore₂, hok₂⟩ :=
      watchLoop_single_props env.watchCount env p args ctx (allocSet st).1
        (runCmd env (.single p []) args { ctx with resources := (allocSet st).1 } stG).2
        (by rw [hstore₁]; exact hsG)
    have hwl : watchLoop env (.single p []) args ctx (allocSet st).1 env.watchCount
        (runCmd env (.single p []) args { ctx with resources := (allocSet st).1 } stG).2 =
        (.ok (), (watchLoop env (.single p []) args ctx (allocSet st).1 env.watchCount
          (runCmd env (.single p []) args
            { ctx with resources := (allocSet st).1 } stG).2).2) :=
      Prod.ext hok₂ rfl
    rw [hwl] at hred
    refine ⟨.resourceRemoved ctx.resources (.watchGuard st.nextGuard) :: (new₂ ++ new₁ ++
      [.resourceAdded ctx.resources (.watchGuard st.nextGuard), .setAllocated st.nextSet]),
      ?_, ?_, ?_⟩
    · rw [hred]
      simp only [removeResource]
      rw [ht₂, ht₁, hstG]
      simp [addResource, allocSet, pushEvent, List.append_assoc, hguard]
    · simp [List.filter_append, ha₁, ha₂, Event.isAlloc]
    · intro s c hmem
      simp only [List.mem_cons, List.append_assoc, List.mem_append] at hmem
      rcases hmem with h | h | h | h
      · cases h
      · exact Or.inl (hsid ▸ hadds₂ s c h)
      · exact Or.inl (hsid ▸ hadds₁ s c h)
      · simp at h
        exact Or.inr ⟨h.1, h.2⟩

/-- Witness for `c5_amended` on a concrete parallel pair. -/
theorem c5_witness :
    envAllOk.found ['a'] = true ∧ envAllOk.found ['b'] = true ∧
    (runCmd envAllOk (.parallel [.single ['a'] [], .single ['b'] []]) [] ctx0 st0).2.trace =
      .resourceRemoved ctx0.resources (.proc (st0.nextPid + 1)) ::
      .resourceAdded ctx0.resources (.proc (st0.nextPid + 1)) ::
      .spawned (st0.nextPid + 1) ['b'] [] ctx0.cwd .inherit ::
      .resourceRemoved ctx0.resources (.proc st0.nextPid) ::
      .resourceAdded ctx0.resources (.proc st0.nextPid) ::
      .spawned st0.nextPid ['a'] [] ctx0.cwd .inherit :: st0.trace :=
  ⟨rfl, rfl, c5_amended.1 envAllOk ['a'] ['b'] ctx0 st0 rfl rfl⟩

/-! ## Claim C10: no `Ref` survives resolution -/

/-- Successful resolution yields a `Ref`-free command, and a resolution
error is never the `Ref should be resolved before running.` error. -/
theorem resolveRef_props (tasks : Tasks) : ∀ (c : Command) (ctx : ResolveContext),
    (∀ c', resolveRef tasks c ctx = .ok c' → refFree c' = true) ∧
    (∀ e, resolveRef tasks c ctx = .error e → e ≠ .refUnresolved) := by
  refine resolveRef.induct tasks
    (fun c ctx =>
      (∀ c', resolveRef tasks c ctx = .ok c' → refFree c' = true) ∧
      (∀ e, resolveRef tasks c ctx = .error e → e ≠ .refUnresolved))
    (fun cs ctx =>
      (∀ cs', resolveList tasks cs ctx = .ok cs' → refFreeList cs' = true) ∧
      (∀ e, resolveList tasks cs ctx = .error e → e ≠ .refUnresolved))
    ?_ ?_ ?_ ?_ ?_ ?_ ?_ ?_ ?_ ?_ ?_ ?_ ?_ ?_
  · -- single
    intro ctx name args
    refine ⟨fun c' h => ?_, fun e h => ?_⟩
    · simp only [resolveRef] at h
      cases h
      rfl
    · simp only [resolveRef] at h
      cases h
  · -- ref, not defined
    intro ctx name args hfind
    rw [resolveRef_ref_eq, hfind]
    refine ⟨fun c' h => ?_, fun e h => ?_⟩
    · cases h
    · cases h
      simp
  · -- ref, loop
    intro ctx name args command hfind hmem
    rw [resolveRef_ref_loop args ctx hfind hmem]
    refine ⟨fun c' h => ?_, fun e h => ?_⟩
    · cases h
    · cases h
      simp
  · -- ref, step
    intro ctx name args command hfind hnot ih
    rw [resolveRef_ref_found args ctx hfind hnot]
    exact ih
  · -- sequence
    intro ctx cs ih
    refine ⟨fun c' h => ?_, fun e h => ?_⟩
    · simp only [resolveRef] at h
      cases hl : resolveList tasks cs ctx with
      | ok l =>
        rw [hl] at h
        cases h
        simpa [refFree] using ih.1 l hl
      | error e' =>
        rw [hl] at h
        cases h
    · simp only [resolveRef] at h
      cases hl : resolveList tasks cs ctx with
      | ok l =>
        rw [hl] at h
        cases h
      | error e' =>
        rw [hl] at h
        cases h
        exact ih.2 e hl
  · -- parallel
    intro ctx cs ih
    refine ⟨fun c' h => ?_, fun e h => ?_⟩
    · simp only [resolveRef] at h
      cases hl : resolveList tasks cs ctx with
      | ok l =>
        rw [hl] at h
        cases h
        simpa [refFree] using ih.1 l hl
      | error e' =>
        rw [hl] at h
        cases h
    · simp only [resolveRef] at h
      cases hl : resolveList tasks cs ctx with
      | ok l =>
        rw [hl] at h
        cases h
      | error e' =>
        rw [hl] at h
        cases h
        exact ih.2 e hl
  · -- syncWatcher, nested
    intro ctx dirs w inner hw
    refine ⟨fun c' h => ?_, fun e h => ?_⟩ <;> simp only [resolveRef, hw, if_true] at h
    · cases h
    · cases h
      simp
  · -- syncWatcher
    intro ctx dirs w inner hw ih
    refine ⟨fun c' h => ?_, fun e h => ?_⟩ <;> simp only [resolveRef, hw, if_false] at h
    · cases hi : resolveRef tasks inner { checked := ctx.checked, hasWatcher := true } with
      | ok i =>
        rw [hi] at h
        cases h
        simpa [refFree] using ih.1 i hi
      | error e' =>
        rw [hi] at h
        cases h
    · cases hi : resolveRef tasks inner { checked := ctx.checked, hasWatcher := true } with
      | ok i =>
        rw [hi] at h
        cases h
      | error e' =>
        rw [hi] at h
        cases h
        exact ih.2 e hi
  · -- asyncWatcher, nested
    intro ctx dirs w inner hw
    refine ⟨fun c' h => ?_, fun e h => ?_⟩ <;> simp only [resolveRef, hw, if_true] at h
    · cases h
    · cases h
      simp
  · -- asyncWatcher
    intro ctx dirs w inner hw ih
    refine ⟨fun c' h => ?_, fun e h => ?_⟩ <;> simp only [resolveRef, hw, if_false] at h
    · cases hi : resolveRef tasks inner { checked := ctx.checked, hasWatcher := true } with
      | ok i =>
        rw [hi] at h
        cases h
        simpa [refFree] using ih.1 i hi
      | error e' =>
        rw [hi] at h
        cases h
    · cases hi : resolveRef tasks inner { checked := ctx.checked, hasWatcher := true } with
      | ok i =>
        rw [hi] at h
        cases h
      | error e' =>
        rw [hi] at h
        cases h
        exact ih.2 e hi
  · -- list nil
    intro ctx
    refine ⟨fun cs' h => ?_, fun e h => ?_⟩
    · simp only [resolveList] at h
      cases h
      rfl
    · simp only [resolveList] at h
      cases h
  · -- list cons, child errors
    intro ctx c rest e' hc ih1
    refine ⟨fun cs' h => ?_, fun e h => ?_⟩ <;> simp only [resolveList, hc] at h
    · cases h
    · cases h
      exact ih1.2 e' hc
  · -- list cons, child ok, rest errors
    intro ctx c rest c' hc e' hr ih1 ih2
    refine ⟨fun cs' h => ?_, fun e h => ?_⟩ <;> simp only [resolveList, hc, hr] at h
    · cases h
    · cases h
      exact ih2.2 e' hr
  · -- list cons, both ok
    intro ctx c rest c' hc rest' hr ih1 ih2
    refine ⟨fun cs' h => ?_, fun e h => ?_⟩ <;> simp only [resolveList, hc, hr] at h
    · cases h
      simp [refFreeList, ih1.1 c' hc, ih2.1 rest' hr]
    · cases h

/-- Closing a list of closers either succeeds or fails with the
nested-watchers error of a guard closer. -/
theorem closeList_outcome : ∀ (l : List Closer) (st : RunState),
    (closeList l st).1 = .ok () ∨ (closeList l st).1 = .error .nestedWatchers := by
  intro l
  induction l with
  | nil => intro st; exact Or.inl rfl
  | cons c rest ih =>
    intro st
    cases c with
    | proc pid => simpa [closeList, closeCloser] using ih _
    | watchGuard g => exact Or.inr rfl

/-- The watcher force-close either succeeds or fails with the
nested-watchers error. -/
theorem closeResouces_outcome (sid : Nat) (st : RunState) :
    (closeResouces sid st).1 = .ok () ∨ (closeResouces sid st).1 = .error .nestedWatchers := by
  simp only [closeResouces]
  cases hc : closeList (st.store sid) st with
  | mk r st' =>
    rcases closeList_outcome (st.store sid) st with h | h <;> rw [hc] at h <;>
      simp only at h <;> subst h
    · exact Or.inl rfl
    · exact Or.inr rfl

/-- Running any `Ref`-free command never produces the
`Ref should be resolved before running.` error, whatever the environment,
arguments, context and state. -/
theorem runCmd_no_refUnresolved (env : Env) : ∀ (c : Command) (args : List (List Char))
    (ctx : RunContext) (st : RunState), refFree c = true →
    (runCmd env c args ctx st).1 ≠ .error .refUnresolved := by
  refine runCmd.induct env
    (fun c args ctx st => refFree c = true →
      (runCmd env c args ctx st).1 ≠ .error .refUnresolved)
    (fun inner args ctx sid n st =>
      (watchLoop env inner args ctx sid n st).1 ≠ .error .refUnresolved)
    (fun cs ctx st => refFreeList cs = true →
      (runPar env cs ctx st).1 ≠ .error .refUnresolved)
    (fun cs ctx st => refFreeList cs = true →
      (runSeq env cs ctx st).1 ≠ .error .refUnresolved)
    ?_ ?_ ?_ ?_ ?_ ?_ ?_ ?_ ?_ ?_ ?_ ?_ ?_ ?_ ?_ ?_ ?_ ?_
  · -- single, found
    intro args ctx st name cargs hf _
    simp only [runCmd, hf, if_true]
    split <;> simp
  · -- single, not found
    intro args ctx st name cargs hf _
    simp [runCmd, hf]
  · -- ref
    intro args ctx st name rargs hrf
    simp [refFree] at hrf
  · -- sequence, args nonempty
    intro args ctx st cs hargs _
    simp [runCmd, hargs]
  · -- sequence
    intro args ctx st cs hargs ih hrf
    simp only [ne_eq, not_not] at hargs
    subst hargs
    simp only [runCmd, ne_eq, not_true_eq_false, if_false]
    exact ih (by simpa [refFree] using hrf)
  · -- parallel, args nonempty
    intro args ctx st cs hargs _
    simp [runCmd, hargs]
  · -- parallel
    intro args ctx st cs hargs ih hrf
    simp only [ne_eq, not_not] at hargs
    subst hargs
    simp only [runCmd, ne_eq, not_true_eq_false, if_false]
    exact ih (by simpa [refFree] using hrf)
  · -- syncWatcher
    intro args ctx st dirs w inner sid st₁ halloc fst st₂ hrun ih1 ih2 hrf
    rw [runCmd_syncWatcher_eq]
    simp only [halloc]
    rw [hrun]
    exact ih2
  · -- asyncWatcher, loop ok
    intro args ctx st dirs w inner sid st₁ halloc gid st₂ st₃ fst st₄ hrun a₃ st' hwl ih1 ih2 hrf
    rw [runCmd_asyncWatcher_eq]
    simp only [halloc]
    rw [hrun]
    simp only
    rw [hwl]
    simp
  · -- asyncWatcher, loop not ok
    intro args ctx st dirs w inner sid st₁ halloc gid st₂ st₃ fst st₄ hrun hneq ih1 ih2 hrf
    rw [runCmd_asyncWatcher_eq]
    simp only [halloc]
    rw [hrun]
    simp only
    rcases hw : watchLoop env inner args ctx sid env.watchCount st₄ with ⟨r, stl⟩
    cases r with
    | ok u => exact absurd hw (by intro hh; exact hneq u stl hh)
    | error e =>
      have := ih2
      rw [hw] at this
      simpa using this
  · -- watchLoop zero
    intro inner args ctx sid st
    simp [watchLoop]
  · -- watchLoop succ, close ok
    intro inner args ctx sid n st a st' hclose fst st₁ hrun ih1 ih2
    rw [watchLoop, hclose]
    simp only [hrun]
    exact ih2
  · -- watchLoop succ, close fails
    intro inner args ctx sid n st hneq
    rw [watchLoop]
    rcases hc : closeResouces sid st with ⟨r, stc⟩
    cases r with
    | ok u => exact absurd hc (by intro hh; exact hneq u stc hh)
    | error e =>
      rcases closeResouces_outcome sid st with h | h <;> rw [hc] at h <;> simp only at h
      · cases h
      · cases h
        simp
  · -- runPar nil
    intro ctx st _
    simp [runPar]
  · -- runPar cons
    intro ctx st c rest fst st₁ hrun fst' st₂ hpar ih1 ih3 hrf
    simp only [refFreeList, Bool.and_eq_true] at hrf
    simp only [runPar]
    rw [hrun, hpar]
    simp only
    cases fst with
    | ok u =>
      have := ih3 hrf.2
      rw [hpar] at this
      simpa using this
    | error e =>
      have := ih1 hrf.1
      rw [hrun] at this
      simpa using this
  · -- runSeq nil
    intro ctx st _
    simp [runSeq]
  · -- runSeq cons, child ok
    intro ctx st c rest a st' hrun ih1 ih4 hrf
    simp only [refFreeList, Bool.and_eq_true] at hrf
    simp only [runSeq]
    rw [hrun]
    exact ih4 hrf.2
  · -- runSeq cons, child not ok
    intro ctx st c rest hneq ih1 hrf
    simp only [refFreeList, Bool.and_eq_true] at hrf
    simp only [runSeq]
    rcases hr : runCmd env c [] ctx st with ⟨r, st'⟩
    cases r with
    | ok u => exact absurd hr (by intro hh; exact hneq u st' hh)
    | error e =>
      have := ih1 hrf.1
      rw [hr] at this
      simpa using this

/-- Claim C10: for every registry and task name, the public `TaskRunner.run`
path never surfaces the `Ref should be resolved before running.` error:
successful resolution leaves no `Ref` node, and running a `Ref`-free
command cannot reach `Ref.run`. -/
theorem c10_refUnresolved_unreachable : ∀ (env : Env) (tasks : Tasks)
    (name : List Char) (args : List (List Char)) (cwd : List Char),
    isRefUnresolvedOutcome (taskRunnerRun env tasks name args cwd).1 = false := by
  intro env tasks name args cwd
  have hne : (taskRunnerRun env tasks name args cwd).1 ≠ .error .refUnresolved := by
    simp only [taskRunnerRun]
    cases hf : findTask tasks name with
    | none => simp
    | some command =>
      simp only
      cases hr : resolveRef tasks command ⟨[], false⟩ with
      | error e =>
        simpa using (resolveRef_props tasks command ⟨[], false⟩).2 e hr
      | ok resolved =>
        simp only
        exact runCmd_no_refUnresolved env resolved args ⟨cwd, 0⟩ _
          ((resolveRef_props tasks command ⟨[], false⟩).1 resolved hr)
  cases hres : (taskRunnerRun env tasks name args cwd).1 with
  | ok u => rfl
  | error e =>
    rw [hres] at hne
    cases e <;> first | rfl | exact absurd rfl hne

end DenoTaskRunner

